import Mathlib

/-!
Verification development for the trace-to-dataset scripts of the
langchain-skills repository.  The definitions below are a shallow
embedding of the TypeScript functions in generate_datasets.ts
(trace loading, field extraction, the four dataset builders, CSV
export, the upload confirmation flow) and of the tree-rendering
helper in query_traces.ts.  JavaScript objects are modelled as
association lists of JSON values, JavaScript truthiness is made
explicit, the random shuffle used by the single-step sampler is a
function parameter, and the unbounded parent-link walk of getDepth
is fuel-indexed so that divergence is observable.
-/

namespace TraceGen

/-- Tagged JSON value, the model of the dynamically shaped run payloads. -/
inductive Json where
  | null
  | bool (b : Bool)
  | num (n : Int)
  | str (s : String)
  | arr (xs : List Json)
  | obj (fields : List (String × Json))

/-- JavaScript truthiness of a JSON value: null, false, 0 and the empty
string are falsy; every array and object (empty ones included) is truthy. -/
def truthy : Json → Bool
  | .null => false
  | .bool b => b
  | .num n => n != 0
  | .str s => s != ""
  | .arr _ => true
  | .obj _ => true

/-- Truthiness of a possibly absent value (undefined is falsy). -/
def truthyOpt : Option Json → Bool
  | some v => truthy v
  | none => false

/-- Escape of one character inside a JSON string literal. -/
def escChar (c : Char) : List Char :=
  if c = '"' then ['\\', '"']
  else if c = '\\' then ['\\', '\\']
  else if c = '\n' then ['\\', 'n']
  else if c = '\t' then ['\\', 't']
  else if c = '\r' then ['\\', 'r']
  else [c]

/-- Escape of a string for inclusion in JSON output. -/
def escString (s : String) : String :=
  String.mk (s.data.foldr (fun c acc => escChar c ++ acc) [])

mutual

/-- Model of JSON.stringify on a JSON value. -/
def jsonStringify : Json → String
  | .null => "null"
  | .bool true => "true"
  | .bool false => "false"
  | .num n => toString n
  | .str s => "\"" ++ escString s ++ "\""
  | .arr xs => "[" ++ stringifyElems xs ++ "]"
  | .obj fs => "\x7b" ++ stringifyFields fs ++ "\x7d"

/-- Comma separated serialization of array elements. -/
def stringifyElems : List Json → String
  | [] => ""
  | [x] => jsonStringify x
  | x :: y :: rest => jsonStringify x ++ "," ++ stringifyElems (y :: rest)

/-- Comma separated serialization of object fields. -/
def stringifyFields : List (String × Json) → String
  | [] => ""
  | [(k, v)] => "\"" ++ escString k ++ "\":" ++ jsonStringify v
  | (k, v) :: f :: rest =>
      "\"" ++ escString k ++ "\":" ++ jsonStringify v ++ "," ++
        stringifyFields (f :: rest)

end

mutual

/-- Model of the JavaScript String() coercion: strings pass through,
numbers and booleans print, arrays join their elements with commas and
objects collapse to the usual object placeholder text. -/
def jsToString : Json → String
  | .null => "null"
  | .bool true => "true"
  | .bool false => "false"
  | .num n => toString n
  | .str s => s
  | .arr xs => jsArrJoin xs
  | .obj _ => "[object Object]"

/-- Join of array elements for the String() coercion; null elements
render as the empty string. -/
def jsArrJoin : List Json → String
  | [] => ""
  | [.null] => ""
  | [x] => jsToString x
  | .null :: y :: rest => "," ++ jsArrJoin (y :: rest)
  | x :: y :: rest => jsToString x ++ "," ++ jsArrJoin (y :: rest)

end

/-- ASCII lower-casing of one character, the fragment of toLowerCase the
scripts rely on. -/
def charToLower (c : Char) : Char :=
  if 65 ≤ c.toNat ∧ c.toNat ≤ 90 then Char.ofNat (c.toNat + 32) else c

/-- Model of String.prototype.toLowerCase restricted to ASCII letters. -/
def strToLower (s : String) : String :=
  String.mk (s.data.map charToLower)

/-- Whitespace test used by trim. -/
def isWsChar (c : Char) : Bool :=
  c = ' ' ∨ c = '\t' ∨ c = '\n' ∨ c = '\r'

/-- Model of String.prototype.trim. -/
def strTrim (s : String) : String :=
  String.mk ((((s.data.dropWhile isWsChar).reverse).dropWhile isWsChar).reverse)

/-- Lexicographic comparison of character lists by code point, the order
the default JavaScript Array.prototype.sort comparator induces on
strings. -/
def charsLe : List Char → List Char → Bool
  | [], _ => true
  | _ :: _, [] => false
  | a :: as, b :: bs =>
      if a.toNat < b.toNat then true
      else if b.toNat < a.toNat then false
      else charsLe as bs

/-- String comparison used when sorting CSV header fields. -/
def strLeB (a b : String) : Bool := charsLe a.data b.data

/-- Insertion step of the stable sort: the new element goes in front of
the first element it compares less-or-equal to, so elements with equal
keys keep their original relative order, as JavaScript sort guarantees. -/
def insertSorted {α β : Type} (le : β → β → Bool) (key : α → β) (x : α) :
    List α → List α
  | [] => [x]
  | y :: ys =>
      if le (key x) (key y) then x :: y :: ys
      else y :: insertSorted le key x ys

/-- Stable sort by key, the model of Array.prototype.sort with a
key-difference comparator. -/
def sortKey {α β : Type} (le : β → β → Bool) (key : α → β) : List α → List α
  | [] => []
  | x :: xs => insertSorted le key x (sortKey le key xs)

/-- Ascending integer comparison. -/
def ascLe : Int → Int → Bool := fun p q => decide (p ≤ q)

/-- Descending integer comparison (most recent first). -/
def descLe : Int → Int → Bool := fun p q => decide (q ≤ p)

theorem insertSorted_perm {α β : Type} (le : β → β → Bool) (key : α → β)
    (x : α) (l : List α) : (insertSorted le key x l).Perm (x :: l) := by
  induction l with
  | nil => simp [insertSorted]
  | cons y ys ih =>
      by_cases h : le (key x) (key y) = true
      · simp [insertSorted, h]
      · simp only [insertSorted, h, if_false]
        exact (List.Perm.cons y ih).trans (List.Perm.swap x y ys)

theorem sortKey_perm {α β : Type} (le : β → β → Bool) (key : α → β)
    (l : List α) : (sortKey le key l).Perm l := by
  induction l with
  | nil => simp [sortKey]
  | cons x xs ih =>
      exact (insertSorted_perm le key x (sortKey le key xs)).trans
        (List.Perm.cons x ih)

theorem insertSorted_pairwise {α β : Type} {le : β → β → Bool} {key : α → β}
    (htrans : ∀ a b c, le a b = true → le b c = true → le a c = true)
    (htotal : ∀ a b, le a b = true ∨ le b a = true)
    (x : α) {l : List α}
    (hl : l.Pairwise (fun a b => le (key a) (key b) = true)) :
    (insertSorted le key x l).Pairwise (fun a b => le (key a) (key b) = true) := by
  induction l with
  | nil => simp [insertSorted]
  | cons y ys ih =>
      rcases List.pairwise_cons.mp hl with ⟨hy, hys⟩
      by_cases h : le (key x) (key y) = true
      · simp only [insertSorted, h, if_true]
        refine List.pairwise_cons.mpr ⟨?_, hl⟩
        intro z hz
        rcases List.mem_cons.mp hz with hz | hz
        · exact hz ▸ h
        · exact htrans _ _ _ h (hy z hz)
      · simp only [insertSorted, h, if_false]
        refine List.pairwise_cons.mpr ⟨?_, ih hys⟩
        intro z hz
        have hz2 := (insertSorted_perm le key x ys).mem_iff.mp hz
        rcases List.mem_cons.mp hz2 with hz2 | hz2
        · subst hz2
          rcases htotal (key z) (key y) with hc | hc
          · exact absurd hc h
          · exact hc
        · exact hy z hz2

theorem sortKey_pairwise {α β : Type} {le : β → β → Bool} {key : α → β}
    (htrans : ∀ a b c, le a b = true → le b c = true → le a c = true)
    (htotal : ∀ a b, le a b = true ∨ le b a = true) (l : List α) :
    (sortKey le key l).Pairwise (fun a b => le (key a) (key b) = true) := by
  induction l with
  | nil => simp [sortKey]
  | cons x xs ih => exact insertSorted_pairwise htrans htotal x ih

theorem insertSorted_filter_key {α β : Type} [DecidableEq β]
    {le : β → β → Bool} {key : α → β} (hrefl : ∀ b, le b b = true)
    (x : α) (l : List α) (v : β) :
    (insertSorted le key x l).filter (fun a => decide (key a = v)) =
      if key x = v then x :: l.filter (fun a => decide (key a = v))
      else l.filter (fun a => decide (key a = v)) := by
  induction l with
  | nil =>
      by_cases hx : key x = v <;> simp [insertSorted, List.filter, hx]
  | cons y ys ih =>
      by_cases h : le (key x) (key y) = true
      · simp only [insertSorted, h, if_true]
        by_cases hx : key x = v <;> by_cases hy : key y = v <;>
          simp [List.filter_cons, hx, hy]
      · simp only [insertSorted, h, if_false, List.filter_cons]
        by_cases hx : key x = v
        · have hy : ¬ (key y = v) := by
            intro hyv
            exact h (hx ▸ hyv ▸ hrefl (key y))
          simp [hx, hy, ih]
        · by_cases hy : key y = v <;> simp [hx, hy, ih]

theorem sortKey_filter_key {α β : Type} [DecidableEq β]
    {le : β → β → Bool} {key : α → β} (hrefl : ∀ b, le b b = true)
    (l : List α) (v : β) :
    (sortKey le key l).filter (fun a => decide (key a = v)) =
      l.filter (fun a => decide (key a = v)) := by
  induction l with
  | nil => simp [sortKey]
  | cons x xs ih =>
      by_cases hx : key x = v <;>
        simp [sortKey, insertSorted_filter_key hrefl, hx, List.filter_cons, ih]

theorem ascLe_trans : ∀ a b c : Int, ascLe a b = true → ascLe b c = true →
    ascLe a c = true := by
  intro a b c hab hbc
  simp only [ascLe, decide_eq_true_eq] at *
  omega

theorem ascLe_total : ∀ a b : Int, ascLe a b = true ∨ ascLe b a = true := by
  intro a b
  simp only [ascLe, decide_eq_true_eq]
  omega

theorem ascLe_refl : ∀ a : Int, ascLe a a = true := by
  intro a
  simp [ascLe]

theorem descLe_trans : ∀ a b c : Int, descLe a b = true → descLe b c = true →
    descLe a c = true := by
  intro a b c hab hbc
  simp only [descLe, decide_eq_true_eq] at *
  omega

theorem descLe_refl : ∀ a : Int, descLe a a = true := by
  intro a
  simp [descLe]

/-- Flat run record as loaded from a JSONL trace export, the RunData
interface of generate_datasets.ts.  Timestamps are already converted to
epoch milliseconds; a missing or unparsable timestamp is none.  Inputs
and outputs are JSON objects or null. -/
structure RunData where
  run_id : Option String := none
  id : Option String := none
  trace_id : Option String := none
  name : Option String := none
  run_type : Option String := none
  parent_run_id : Option String := none
  start_time : Option Int := none
  inputs : Option (List (String × Json)) := none
  outputs : Option (List (String × Json)) := none

/-- Assembled trace: trace id, root run, and all runs of the trace. -/
def TraceData : Type := String × RunData × List RunData

/-- JavaScript a-or-b on a possibly missing string: the left operand wins
when it is truthy (present and non-empty). -/
def jsStrOr (o : Option String) (d : String) : String :=
  match o with
  | some s => if s = "" then d else s
  | none => d

/-- Run id resolution run_id or id or the empty string. -/
def ridOf (r : RunData) : String := jsStrOr r.run_id (jsStrOr r.id "")

/-- Parent id after the or-null normalisation: the empty string and a
missing field both become none. -/
def normParent (o : Option String) : Option String :=
  match o with
  | some s => if s = "" then none else some s
  | none => none

/-- Sort key on start time: a missing timestamp counts as epoch 0, as in
the getTime-or-zero comparators of the scripts. -/
def timeKey (r : RunData) : Int := r.start_time.getD 0

/-- Common input-side field names tried by the extractor. -/
def COMMON_INPUT_FIELDS : List String :=
  ["query", "input", "question", "message", "prompt", "text"]

/-- Common output-side field names tried by the extractor. -/
def COMMON_OUTPUT_FIELDS : List String :=
  ["answer", "output", "response", "result"]

/-- JavaScript content-or-default: the stored value if truthy, else the
default. -/
def jsOrDefault (o : Option Json) (d : Json) : Json :=
  match o with
  | some v => if truthy v then v else d
  | none => d

/-- Test for the literal string None, compared with strict equality in
the source. -/
def isNoneStr (j : Json) : Bool :=
  match j with
  | .str s => s = "None"
  | _ => false

/-- Strict equality of a possibly missing field against a string
literal, as in the role and type checks of the source. -/
def fieldIsStr (o : Option Json) (s : String) : Bool :=
  match o with
  | some (.str t) => t = s
  | _ => false

/-- First message authored by a human: objects whose type is human or
whose role is user return their content (or the empty string); a bare
string message returns itself; anything else is skipped. -/
def firstHumanMsg : List Json → Option Json
  | [] => none
  | .obj fs :: rest =>
      if fieldIsStr (List.lookup "type" fs) "human" ∨
          fieldIsStr (List.lookup "role" fs) "user" then
        some (jsOrDefault (List.lookup "content" fs) (.str ""))
      else firstHumanMsg rest
  | .str s :: _ => some (.str s)
  | _ :: rest => firstHumanMsg rest

/-- Walk over the reversed message list looking for the last AI message
with truthy content that is not the literal string None. -/
def lastAiMsg : List Json → Option Json
  | [] => none
  | .obj fs :: rest =>
      if fieldIsStr (List.lookup "type" fs) "ai" ∨
          fieldIsStr (List.lookup "role" fs) "assistant" then
        let content := jsOrDefault (List.lookup "content" fs) (.str "")
        if truthy content && !(isNoneStr content) then some content
        else lastAiMsg rest
      else lastAiMsg rest
  | _ :: rest => lastAiMsg rest

/-- Content of the last message when no role is requested: objects give
their content or their JSON serialization, strings pass through. -/
def lastMsgContent (messages : List Json) : Option Json :=
  match messages.getLast? with
  | some (.obj fs) =>
      some (jsOrDefault (List.lookup "content" fs)
        (.str (jsonStringify (.obj fs))))
  | some (.arr xs) => some (.str (jsonStringify (.arr xs)))
  | some (.str s) => some (.str s)
  | _ => none

/-- Model of extractFromMessages of generate_datasets.ts. -/
def extractFromMessages (messages : List Json) (role : Option String) :
    Option Json :=
  if role = some "human" ∨ role = some "user" then firstHumanMsg messages
  else if role = some "ai" ∨ role = some "assistant" then
    lastAiMsg messages.reverse
  else lastMsgContent messages

/-- First named field holding a truthy value, the priority-1 and
priority-3 loops of extractValue. -/
def firstTruthy (d : List (String × Json)) : List String → Option Json
  | [] => none
  | f :: rest =>
      match List.lookup f d with
      | some v => if truthy v then some v else firstTruthy d rest
      | none => firstTruthy d rest

/-- Priority-1 and priority-3 wrapper for an optional field list. -/
def firstTruthyOpt (d : List (String × Json)) (fields : Option (List String)) :
    Option Json :=
  match fields with
  | some fs => firstTruthy d fs
  | none => none

/-- Priority-2 step of extractValue: a messages field that is an array
yields its extracted content when that content is truthy. -/
def messagesContent (d : List (String × Json)) (role : Option String) :
    Option Json :=
  match List.lookup "messages" d with
  | some (.arr ms) =>
      match extractFromMessages ms role with
      | some c => if truthy c then some c else none
      | none => none
  | _ => none

/-- First non-empty string among the object values, the scan of the raw
fallback. -/
def firstNonEmptyStr : List Json → Option Json
  | [] => none
  | .str s :: rest => if s = "" then firstNonEmptyStr rest else some (.str s)
  | _ :: rest => firstNonEmptyStr rest

/-- Priority-4 raw fallback of extractValue: a single string value is
returned as is (even when empty), otherwise the first non-empty string
value, otherwise the whole object. -/
def rawFallback (d : List (String × Json)) : Json :=
  match d.map Prod.snd with
  | [Json.str s] => .str s
  | values =>
      match firstNonEmptyStr values with
      | some v => v
      | none => .obj d

/-- Model of extractValue of generate_datasets.ts: explicit fields, then
the messages array, then common fields, then the raw fallback. -/
def extractValue (data : Option (List (String × Json)))
    (fields : Option (List String)) (commonFields : Option (List String))
    (messageRole : Option String) (fallbackToRaw : Bool) : Option Json :=
  match data with
  | none => none
  | some d =>
      match firstTruthyOpt d fields with
      | some v => some v
      | none =>
          match messagesContent d messageRole with
          | some c => some c
          | none =>
              match firstTruthyOpt d commonFields with
              | some v => some v
              | none => if fallbackToRaw then some (rawFallback d) else none

/-- Model of extractTraceInputs of generate_datasets.ts. -/
def extractTraceInputs (root : RunData) (inputFields : Option (List String))
    (asDict : Bool) : Option Json :=
  let inputs := root.inputs.getD []
  if inputs.isEmpty then (if asDict then some (.obj []) else none)
  else
    match inputFields with
    | some fs =>
        extractValue (some inputs) (some fs) (some COMMON_INPUT_FIELDS)
          (some "human") true
    | none =>
        if asDict then some (.obj inputs)
        else
          extractValue (some inputs) none (some COMMON_INPUT_FIELDS)
            (some "human") true

/-- JSON serialization of object-typed results, applied by the output
extractors before storing a value in a dataset example. -/
def stringifyIfObj (v : Json) : Json :=
  match v with
  | .obj fs => .str (jsonStringify (.obj fs))
  | .arr xs => .str (jsonStringify (.arr xs))
  | other => other

/-- Model of extractTraceOutput of generate_datasets.ts. -/
def extractTraceOutput (root : RunData) (outputFields : Option (List String))
    (messagesOnly : Bool) : Option Json :=
  let outputs := root.outputs.getD []
  if outputs.isEmpty then none
  else
    match extractValue (some outputs) outputFields
        (if messagesOnly then none else some COMMON_OUTPUT_FIELDS)
        (some "ai") (!messagesOnly) with
    | some v => some (stringifyIfObj v)
    | none => none

/-- Inner loop of extractFinalOutput over the descending-time run list:
the first run whose outputs extract to a truthy value wins; objects are
JSON-stringified, other values go through the String() coercion. -/
def finalOutputLoop (outputFields : Option (List String)) :
    List RunData → String
  | [] => ""
  | r :: rest =>
      match r.outputs with
      | none => finalOutputLoop outputFields rest
      | some outs =>
          match extractValue (some outs) outputFields
              (some COMMON_OUTPUT_FIELDS) (some "ai") true with
          | some v =>
              if truthy v then
                match v with
                | .obj fs => jsonStringify (.obj fs)
                | .arr xs => jsonStringify (.arr xs)
                | other => jsToString other
              else finalOutputLoop outputFields rest
          | none => finalOutputLoop outputFields rest

/-- Model of extractFinalOutput of generate_datasets.ts: scan the runs
most recent start time first. -/
def extractFinalOutput (runs : List RunData)
    (outputFields : Option (List String)) : String :=
  finalOutputLoop outputFields (sortKey descLe timeKey runs)

/-- Truthy field of an object, used by the document reduction. -/
def jsTruthyField (d : List (String × Json)) (k : String) : Option Json :=
  match List.lookup k d with
  | some v => if truthy v then some v else none
  | none => none

/-- Reduction of one retrieved document to text: page_content first,
then content or text, then the JSON serialization; strings pass through
and primitives go through String(). -/
def docToString (doc : Json) : String :=
  match doc with
  | .obj d =>
      match jsTruthyField d "page_content" with
      | some v => jsToString v
      | none =>
          match jsTruthyField d "content" with
          | some v => jsToString v
          | none =>
              match jsTruthyField d "text" with
              | some v => jsToString v
              | none => jsonStringify (.obj d)
  | .str s => s
  | .arr xs => jsonStringify (.arr xs)
  | j => jsToString j

/-- Model of extractDocuments of generate_datasets.ts at its call sites,
where the argument is a non-null outputs record: documents or output or
the whole record, wrapped in a singleton when not an array, each entry
reduced to text. -/
def extractDocuments (o : List (String × Json)) : List String :=
  let docsData :=
    jsOrDefault (List.lookup "documents" o)
      (jsOrDefault (List.lookup "output" o) (.obj o))
  let docs : List Json :=
    match docsData with
    | .arr xs => xs
    | j => [j]
  docs.map docToString

/-- Result record of findRetrievalData. -/
structure RagData where
  query : String := ""
  retrieved_chunks : List String := []
  answer : String := ""

/-- Query update of one findRetrievalData iteration: when the run has
non-null object inputs and no query was found yet, the extracted value
is string-coerced when truthy, else the query stays empty. -/
def ragQueryStep (r : RunData) (q : String) : String :=
  match r.inputs with
  | some ins =>
      if q = "" then
        match extractValue (some ins) none (some COMMON_INPUT_FIELDS)
            (some "human") false with
        | some v => if truthy v then jsToString v else ""
        | none => ""
      else q
  | none => q

/-- Chunk accumulation of one findRetrievalData iteration. -/
def ragChunksStep (r : RunData) (cs : List String) : List String :=
  match r.outputs with
  | some outs => cs ++ extractDocuments outs
  | none => cs

/-- Loop of findRetrievalData over the time-sorted retriever runs,
carrying the query found so far and the accumulated chunks. -/
def ragLoop : List RunData → String → List String → String × List String
  | [], q, cs => (q, cs)
  | r :: rest, q, cs => ragLoop rest (ragQueryStep r q) (ragChunksStep r cs)

/-- Model of findRetrievalData of generate_datasets.ts. -/
def findRetrievalData (runs : List RunData) : RagData :=
  let retRuns := runs.filter (fun r => decide (r.run_type = some "retriever"))
  let sorted := sortKey ascLe timeKey retRuns
  let qc := ragLoop sorted "" []
  { query := qc.1, retrieved_chunks := qc.2,
    answer := extractFinalOutput runs none }

/-- One single-step record: node name, inputs, outputs and run id. -/
structure NodeIo where
  node_name : String
  inputs : List (String × Json)
  outputs : List (String × Json)
  run_id : String

/-- Model of getNodeIo of generate_datasets.ts: filter by name when a
truthy name is given, sort by start time ascending, and keep only runs
with truthy (non-null) outputs. -/
def getNodeIo (runs : List RunData) (runName : Option String) : List NodeIo :=
  let target :=
    match runName with
    | some rn =>
        if rn = "" then runs
        else runs.filter (fun r => decide (r.name = some rn))
    | none => runs
  (sortKey ascLe timeKey target).filterMap (fun r =>
    match r.outputs with
    | some outs =>
        some { node_name := jsStrOr r.name "unknown",
               inputs := r.inputs.getD [],
               outputs := outs,
               run_id := ridOf r }
    | none => none)

/-- Insertion into the parent map with JavaScript Map.set semantics:
an existing key is overwritten in place, a new key is appended. -/
def mapSet (m : List (String × Option String)) (k : String)
    (v : Option String) : List (String × Option String) :=
  match m with
  | [] => [(k, v)]
  | (k0, v0) :: rest =>
      if k0 = k then (k, v) :: rest else (k0, v0) :: mapSet rest k v

/-- Parent map built by extractToolSequence: run id to normalised
parent id. -/
def parentMapOf (runs : List RunData) : List (String × Option String) :=
  runs.foldl (fun m r => mapSet m (ridOf r) (normParent r.parent_run_id)) []

/-- One step of the getDepth while loop: the loop continues exactly when
the current id is truthy and the map holds a truthy parent for it. -/
def pmNext (pm : List (String × Option String)) (cur : String) :
    Option String :=
  if cur = "" then none
  else
    match List.lookup cur pm with
    | some (some p) => if p = "" then none else some p
    | _ => none

/-- Fuel-indexed embedding of getDepth of extractToolSequence.  The
source walks parent links with no bound and no visited set; a result of
none means the walk has not left the loop within the given number of
iterations. -/
def getDepthFuel (pm : List (String × Option String)) :
    Nat → String → Option Nat
  | 0, cur =>
      match pmNext pm cur with
      | none => some 0
      | some _ => none
  | fuel + 1, cur =>
      match pmNext pm cur with
      | none => some 0
      | some p => (getDepthFuel pm fuel p).map (· + 1)

/-- Lower-cased tool name with the unknown default. -/
def toolName (r : RunData) : String := strToLower (jsStrOr r.name "unknown")

/-- Depth admission test of the trajectory builder: no bound means every
tool run passes; with a bound the computed depth must not exceed it.  A
walk that does not finish within the fuel is reported as failure. -/
def depthOkB (pm : List (String × Option String)) (fuel : Nat)
    (dep : Option Nat) (rid : String) : Option Bool :=
  match dep with
  | none => some true
  | some d =>
      match getDepthFuel pm fuel rid with
      | some dr => some (decide (dr ≤ d))
      | none => none

/-- Loop of extractToolSequence over the time-sorted runs collecting
lower-cased names of tool runs that pass the depth test; none propagates
a depth walk that exceeded its fuel. -/
def toolLoop (pm : List (String × Option String)) (fuel : Nat)
    (dep : Option Nat) : List RunData → Option (List String)
  | [] => some []
  | r :: rest =>
      if r.run_type = some "tool" then
        match depthOkB pm fuel dep (ridOf r) with
        | none => none
        | some true => (toolLoop pm fuel dep rest).map (toolName r :: ·)
        | some false => toolLoop pm fuel dep rest
      else toolLoop pm fuel dep rest

/-- Fuel-indexed model of extractToolSequence of generate_datasets.ts. -/
def extractToolSequenceF (fuel : Nat) (runs : List RunData)
    (dep : Option Nat) : Option (List String) :=
  toolLoop (parentMapOf runs) fuel dep (sortKey ascLe timeKey runs)

/-- Output unit of the dataset builders, with one optional slot per
type-specific field. -/
structure DatasetExample where
  trace_id : String
  inputs : Option Json := none
  outputs : Option Json := none
  run_id : Option String := none
  node_name : Option String := none
  occurrence : Option Nat := none
  question : Option String := none
  retrieved_chunks : Option String := none
  answer : Option String := none
  cited_chunks : Option String := none

/-- Generation options of generateDataset. -/
structure GenOptions where
  runName : Option String := none
  depth : Option Nat := none
  inputFields : Option (List String) := none
  outputFields : Option (List String) := none
  messagesOnly : Bool := false
  samplePerTrace : Option Nat := none

/-- Empty-object test used by the root-input skip: an object or array
with no keys. -/
def jsonEmptyObj : Json → Bool
  | .obj [] => true
  | .arr [] => true
  | _ => false

/-- JavaScript typeof-object test on a JSON value. -/
def jsonIsObjType : Json → Bool
  | .obj _ => true
  | .arr _ => true
  | .null => true
  | _ => false

/-- Inputs stored in an emitted example: a non-object extraction under
explicit input fields is wrapped in an expected_input object. -/
def buildInputs (rootInputs : Json) (opts : GenOptions) : Json :=
  if opts.inputFields.isSome && !(jsonIsObjType rootInputs) then
    .obj [("expected_input", rootInputs)]
  else rootInputs

/-- Root-input skip of the non-RAG branches: stop when the extraction is
null, falsy, or an empty object. -/
def rootInputsSkip (ri : Option Json) : Bool :=
  match ri with
  | none => true
  | some v => !(truthy v) || jsonEmptyObj v

/-- RAG example emitted for one trace. -/
def ragExample (traceId : String) (rd : RagData) : DatasetExample :=
  { trace_id := traceId,
    question := some rd.query,
    retrieved_chunks := some (String.intercalate "\n\n" rd.retrieved_chunks),
    answer := some rd.answer,
    cited_chunks :=
      some (jsonStringify (.arr ((rd.retrieved_chunks.take 3).map .str))) }

/-- Single-step example for one retained occurrence; idx is the
zero-based position in the retained sample. -/
def singleStepExample (traceId : String) (idx : Nat) (nio : NodeIo) :
    DatasetExample :=
  { trace_id := traceId,
    run_id := some nio.run_id,
    node_name := some nio.node_name,
    occurrence := some (idx + 1),
    inputs := some (.obj nio.inputs),
    outputs := some (.obj [("expected_output", .obj nio.outputs)]) }

/-- Sampling step of the single-step builder: when a truthy cap is given
and exceeded, shuffle and keep the first cap entries.  The shuffle
function is the embedding of the random comparator sort of the source;
any permutation is a possible outcome. -/
def sampleNodeIo (shuffle : List NodeIo → List NodeIo)
    (cap : Option Nat) (l : List NodeIo) : List NodeIo :=
  match cap with
  | some k => if k ≠ 0 ∧ l.length > k then (shuffle l).take k else l
  | none => l

/-- Examples emitted by the single-step branch for one trace. -/
def singleStepExamples (shuffle : List NodeIo → List NodeIo)
    (traceId : String) (runs : List RunData) (opts : GenOptions) :
    List DatasetExample :=
  let nodeIoList := getNodeIo runs opts.runName
  (sampleNodeIo shuffle opts.samplePerTrace nodeIoList).enum.map
    (fun p => singleStepExample traceId p.1 p.2)

/-- Per-trace body of generateDataset.  The result is none exactly when
a depth walk of the trajectory branch fails to finish within the fuel;
an emitted empty list means the trace was skipped. -/
def perTraceF (fuel : Nat) (shuffle : List NodeIo → List NodeIo)
    (t : String × RunData × List RunData) (datasetType : String)
    (opts : GenOptions) : Option (List DatasetExample) :=
  let traceId := t.1
  let root := t.2.1
  let runs := t.2.2
  if datasetType = "rag" then
    let rd := findRetrievalData runs
    if rd.query ≠ "" ∧ rd.answer ≠ "" then some [ragExample traceId rd]
    else some []
  else
    let ri := extractTraceInputs root opts.inputFields opts.inputFields.isNone
    if rootInputsSkip ri then some []
    else
      let inputs := buildInputs (ri.getD .null) opts
      if datasetType = "final_response" then
        match extractTraceOutput root opts.outputFields opts.messagesOnly with
        | some out =>
            if truthy out then
              some [{ trace_id := traceId, inputs := some inputs,
                      outputs := some (.obj [("expected_response", out)]) }]
            else some []
        | none => some []
      else if datasetType = "single_step" then
        if (getNodeIo runs opts.runName).isEmpty then some []
        else some (singleStepExamples shuffle traceId runs opts)
      else if datasetType = "trajectory" then
        match extractToolSequenceF fuel runs opts.depth with
        | none => none
        | some tools =>
            if tools.isEmpty then some []
            else
              some [{ trace_id := traceId, inputs := some inputs,
                      outputs := some (.obj
                        [("expected_trajectory", .arr (tools.map .str))]) }]
      else some []

/-- Model of generateDataset of generate_datasets.ts, concatenating the
per-trace results in order. -/
def generateDatasetF (fuel : Nat) (shuffle : List NodeIo → List NodeIo)
    (traces : List (String × RunData × List RunData)) (datasetType : String)
    (opts : GenOptions) : Option (List DatasetExample) :=
  match traces with
  | [] => some []
  | t :: ts =>
      match perTraceF fuel shuffle t datasetType opts with
      | none => none
      | some es =>
          match generateDatasetF fuel shuffle ts datasetType opts with
          | none => none
          | some rest => some (es ++ rest)

/-- Grouping key of the JSONL loaders: the trace id when truthy, else
the caller-supplied fallback (the literal unknown for single-file loads,
the file base name for directory loads). -/
def runKey (r : RunData) (fallback : String) : String :=
  jsStrOr r.trace_id fallback

/-- Push of one run into its bucket, with Map semantics: the first
bucket with the key is extended in place, otherwise a new bucket is
appended. -/
def addToBucket (m : List (String × List RunData)) (k : String)
    (r : RunData) : List (String × List RunData) :=
  match m with
  | [] => [(k, [r])]
  | (k0, rs) :: rest =>
      if k0 = k then (k0, rs ++ [r]) :: rest
      else (k0, rs) :: addToBucket rest k r

/-- Model of the runsByTrace grouping loop of loadTracesFromFile and
loadTracesFromDir. -/
def groupByTrace (runs : List RunData) (fallback : String) :
    List (String × List RunData) :=
  runs.foldl (fun m r => addToBucket m (runKey r fallback) r) []

/-- Quoting test of the CSV exporter. -/
def csvNeedsQuote (s : String) : Bool :=
  s.data.any (fun c => c = ',' ∨ c = '"' ∨ c = '\n')

/-- CSV quoting: wrap in double quotes, doubling internal quotes. -/
def csvQuote (s : String) : String :=
  "\"" ++
    String.mk (s.data.foldr
      (fun c acc => if c = '"' then '"' :: '"' :: acc else c :: acc) []) ++
    "\""

/-- Rendering of one non-null CSV value: objects and arrays are
JSON-stringified, primitives go through String(). -/
def csvRender (v : Json) : String :=
  match v with
  | .obj fs => jsonStringify (.obj fs)
  | .arr xs => jsonStringify (.arr xs)
  | other => jsToString other

/-- One CSV cell: missing and null render empty, values needing quotes
are quoted. -/
def csvCell (ex : List (String × Json)) (f : String) : String :=
  match List.lookup f ex with
  | none => ""
  | some .null => ""
  | some v =>
      let s := csvRender v
      if csvNeedsQuote s then csvQuote s else s

/-- Key accumulation with Set.add semantics: first occurrence order,
duplicates ignored. -/
def addKeysFrom (acc : List String) (ex : List (String × Json)) :
    List String :=
  ex.foldl (fun a kv => if kv.1 ∈ a then a else a ++ [kv.1]) acc

/-- Sorted union of all keys across the exported records. -/
def csvFieldnames (ds : List (List (String × Json))) : List String :=
  sortKey strLeB id (ds.foldl addKeysFrom [])

/-- Join of one CSV line. -/
def csvLine (cells : List String) : String := String.intercalate "," cells

/-- Lines of the CSV branch of exportToFile: a header row of the sorted
key union, then one row per record. -/
def exportCsvLines (ds : List (List (String × Json))) : List String :=
  let fns := csvFieldnames ds
  csvLine fns :: ds.map (fun ex => csvLine (fns.map (csvCell ex)))

/-- Guarded CSV export: exportToFile writes nothing for an empty
dataset. -/
def exportToFileCsv (ds : List (List (String × Json))) :
    Option (List String) :=
  if ds.isEmpty then none else some (exportCsvLines ds)

/-- Run record of the tree renderer of query_traces.ts, where the id is
mandatory and the start time is already in epoch milliseconds. -/
structure TRun where
  id : String
  parent_run_id : Option String := none
  start_time : Option Int := none
  name : String := ""
  run_type : String := ""

/-- Normalised parent id of a tree run: toString-or-null. -/
def tParent (r : TRun) : Option String := normParent r.parent_run_id

/-- Start-time key of a tree run, missing timestamps count as 0. -/
def tTime (r : TRun) : Int := r.start_time.getD 0

/-- Children computation of printTree of query_traces.ts: runs whose
normalised parent id equals the requested one, sorted by start time
ascending with the stable comparator. -/
def childrenOf (runs : List TRun) (parentId : Option String) : List TRun :=
  sortKey ascLe tTime (runs.filter (fun r => decide (tParent r = parentId)))

/-- Observable effects of the upload path of the generate_datasets CLI
action when an upload name is given. -/
inductive UploadStep where
  | readExisting
  | promptUser
  | deleteExisting
  | uploadExamples
  | printCancelled
  deriving DecidableEq

/-- Model of promptConfirm: the typed answer is lower-cased, trimmed and
compared with the letter y. -/
def promptConfirm (answer : String) : Bool :=
  strTrim (strToLower answer) = "y"

/-- Effect trace of the upload section of the CLI action, parametrised
by whether the destination dataset exists, the replace and yes flags,
and the interactive answer.  A read failure (dataset absent) is caught
and the flow proceeds to the upload. -/
def uploadReplaceFlow (datasetExists replaceFlag yesFlag : Bool)
    (answer : String) : List UploadStep :=
  if replaceFlag then
    if datasetExists then
      if yesFlag then [.readExisting, .deleteExisting, .uploadExamples]
      else if promptConfirm answer then
        [.readExisting, .promptUser, .deleteExisting, .uploadExamples]
      else [.readExisting, .promptUser, .printCancelled]
    else [.readExisting, .uploadExamples]
  else [.uploadExamples]

/-! Concrete runs used by the claim instances. -/

/-- Tool run whose parent link (r2) points back at it through r2. -/
def cycleRunA : RunData :=
  { run_id := some "r1", parent_run_id := some "r2", run_type := some "tool",
    start_time := some 1 }

/-- Second half of the parent-id cycle. -/
def cycleRunB : RunData :=
  { run_id := some "r2", parent_run_id := some "r1", start_time := some 2 }

/-- Run list containing a parent-id cycle r1 to r2 to r1. -/
def cycleRuns : List RunData := [cycleRunA, cycleRunB]

theorem cycle_depth_aux (fuel : Nat) :
    getDepthFuel (parentMapOf cycleRuns) fuel "r1" = none ∧
    getDepthFuel (parentMapOf cycleRuns) fuel "r2" = none := by
  have h1 : pmNext (parentMapOf cycleRuns) "r1" = some "r2" := rfl
  have h2 : pmNext (parentMapOf cycleRuns) "r2" = some "r1" := rfl
  induction fuel with
  | zero => exact ⟨by simp [getDepthFuel, h1], by simp [getDepthFuel, h2]⟩
  | succ n ih =>
      exact ⟨by simp [getDepthFuel, h1, ih.2],
             by simp [getDepthFuel, h2, ih.1]⟩

/-- C2: the claim says the depth computation terminates on a parent-id
cycle within a bound equal to the trace size.  The getDepth walk of
extractToolSequence has no such bound: on the two-run cycle the loop
state never reaches an exit, so for every amount of fuel the embedded
walk is still running, and the trajectory extraction that invokes it
diverges as well.  This proves the loop never terminates on this input,
refuting the claimed bound for the depth computation (the tree renderer
itself is guarded by a visited set). -/
theorem getDepth_cycle_diverges : ∀ fuel : Nat,
    getDepthFuel (parentMapOf cycleRuns) fuel "r1" = none ∧
    extractToolSequenceF fuel cycleRuns (some 10) = none := by
  intro fuel
  refine ⟨(cycle_depth_aux fuel).1, ?_⟩
  have hs : sortKey ascLe timeKey cycleRuns = [cycleRunA, cycleRunB] := rfl
  have hA : cycleRunA.run_type = some "tool" := rfl
  have hid : ridOf cycleRunA = "r1" := rfl
  simp [extractToolSequenceF, hs, toolLoop, hA, depthOkB, hid,
    (cycle_depth_aux fuel).1]

/-- C3: with the destination dataset existing, replace requested and the
yes flag absent, a delete effect can only occur after the interactive
prompt and only when the answer confirms; a declining answer yields no
delete, no upload, and the cancelled message. -/
theorem upload_replace_prompt_guard (answer : String) :
    (UploadStep.deleteExisting ∈ uploadReplaceFlow true true false answer →
      promptConfirm answer = true ∧
      (uploadReplaceFlow true true false answer).indexOf UploadStep.promptUser <
        (uploadReplaceFlow true true false answer).indexOf
          UploadStep.deleteExisting) ∧
    (promptConfirm answer = false →
      UploadStep.deleteExisting ∉ uploadReplaceFlow true true false answer ∧
      UploadStep.uploadExamples ∉ uploadReplaceFlow true true false answer ∧
      UploadStep.printCancelled ∈ uploadReplaceFlow true true false answer) := by
  by_cases h : promptConfirm answer = true
  · have hflow : uploadReplaceFlow true true false answer =
        [.readExisting, .promptUser, .deleteExisting, .uploadExamples] := by
      simp [uploadReplaceFlow, h]
    rw [hflow]
    exact ⟨fun _ => ⟨h, by decide⟩, fun hf => absurd (h ▸ hf) (by decide)⟩
  · have h2 : promptConfirm answer = false := by
      cases hp : promptConfirm answer
      · rfl
      · exact absurd hp h
    have hflow : uploadReplaceFlow true true false answer =
        [.readExisting, .promptUser, .printCancelled] := by
      simp [uploadReplaceFlow, h2]
    rw [hflow]
    exact ⟨fun hmem => absurd hmem (by decide), fun _ => by decide⟩

/-- C3 witness: with a declining answer the flow stops at the cancelled
message and performs no delete and no upload. -/
theorem upload_replace_prompt_guard_witness :
    promptConfirm "no" = false ∧
    (UploadStep.deleteExisting ∉ uploadReplaceFlow true true false "no" ∧
     UploadStep.uploadExamples ∉ uploadReplaceFlow true true false "no" ∧
     UploadStep.printCancelled ∈ uploadReplaceFlow true true false "no") :=
  ⟨by decide, (upload_replace_prompt_guard "no").2 (by decide)⟩

/-- C4 amended: the children of a run are the runs whose normalised
parent id matches, sorted by start time ascending where a missing
timestamp counts as time zero (and therefore sorts first relative to
positive timestamps, not last), stably: runs with equal keys keep their
input order, witnessed by the filter identity at every key value. -/
theorem childrenOf_sorted_amended (runs : List TRun) (pid : Option String) :
    (childrenOf runs pid).Perm
      (runs.filter (fun r => decide (tParent r = pid))) ∧
    (childrenOf runs pid).Pairwise (fun a b => tTime a ≤ tTime b) ∧
    ∀ v : Int,
      (childrenOf runs pid).filter (fun r => decide (tTime r = v)) =
        (runs.filter (fun r => decide (tParent r = pid))).filter
          (fun r => decide (tTime r = v)) := by
  refine ⟨sortKey_perm _ _ _, ?_, ?_⟩
  · have h := @sortKey_pairwise TRun Int ascLe tTime ascLe_trans ascLe_total
      (runs.filter (fun r => decide (tParent r = pid)))
    exact h.imp (fun hab => by simpa [ascLe] using hab)
  · intro v
    exact sortKey_filter_key ascLe_refl _ v

/-- Check that runs with missing timestamps all come after the
timestamped ones. -/
def missingLastB (l : List TRun) : Bool :=
  (l.dropWhile (fun r => r.start_time.isSome)).all
    (fun r => r.start_time.isNone)

/-- Tree runs: one child with no timestamp, one with a positive one. -/
def treeDemoRuns : List TRun :=
  [{ id := "a" }, { id := "b", start_time := some 5 }]

/-- C4 counterexample: the child with the missing timestamp is rendered
first, not last, because a missing start time is treated as epoch 0 by
the comparator. -/
theorem childrenOf_missing_last_cex :
    (childrenOf treeDemoRuns none).map (fun r => r.id) = ["a", "b"] ∧
    missingLastB (childrenOf treeDemoRuns none) = false := by decide

theorem firstTruthy_eq_none (d : List (String × Json)) (fields : List String)
    (h : ∀ f ∈ fields, truthyOpt (List.lookup f d) = false) :
    firstTruthy d fields = none := by
  induction fields with
  | nil => rfl
  | cons g rest ih =>
      have hg := h g (List.mem_cons_self g rest)
      have hrest := fun f hf => h f (List.mem_cons_of_mem g hf)
      cases hl : List.lookup g d with
      | none => simpa [firstTruthy, hl] using ih hrest
      | some w =>
          have hw : truthy w = false := by simpa [truthyOpt, hl] using hg
          simpa [firstTruthy, hl, hw] using ih hrest

/-- C5 amended: when some caller-requested field holds a truthy value,
extraction returns the value of the first such field in the list order
of the request, overriding the messages heuristic, the common-field
fallback and the raw fallback; fields that are present with a falsy
value (for example the empty string) are passed over. -/
theorem extract_explicit_priority_amended (d : List (String × Json))
    (fields : List String) (cf : Option (List String)) (role : Option String)
    (fb : Bool) (f : String) (v : Json)
    (hfind : fields.find? (fun g => truthyOpt (List.lookup g d)) = some f)
    (hv : List.lookup f d = some v) :
    extractValue (some d) (some fields) cf role fb = some v := by
  induction fields with
  | nil => simp at hfind
  | cons g rest ih =>
      by_cases hg : truthyOpt (List.lookup g d) = true
      · have hstep : (g :: rest).find?
            (fun x => truthyOpt (List.lookup x d)) = some g := by
          simp [List.find?, hg]
        rw [hstep] at hfind
        have hf : g = f := by injection hfind
        subst hf
        cases hl : List.lookup g d with
        | none => simp [truthyOpt, hl] at hg
        | some w =>
            have hw : truthy w = true := by simpa [truthyOpt, hl] using hg
            have hwv : w = v := by
              rw [hl] at hv
              injection hv
            subst hwv
            simp [extractValue, firstTruthyOpt, firstTruthy, hl, hw]
      · have hgf : truthyOpt (List.lookup g d) = false := by
          cases hb : truthyOpt (List.lookup g d)
          · rfl
          · exact absurd hb hg
        have hskip : (g :: rest).find?
            (fun x => truthyOpt (List.lookup x d)) =
            rest.find? (fun x => truthyOpt (List.lookup x d)) := by
          simp [List.find?, hgf]
        rw [hskip] at hfind
        have hstep : firstTruthy d (g :: rest) = firstTruthy d rest := by
          cases hl : List.lookup g d with
          | none => simp [firstTruthy, hl]
          | some w =>
              have hw : truthy w = false := by
                simpa [truthyOpt, hl] using hgf
              simp [firstTruthy, hl, hw]
        have := ih hfind
        simp only [extractValue, firstTruthyOpt] at this ⊢
        rw [hstep]
        exact this

/-- C5 witness: with requested fields query and question over an object
holding only question, the second requested field wins. -/
theorem extract_explicit_priority_amended_witness :
    extractValue (some [("question", Json.str "why"), ("input", Json.str "x")])
      (some ["query", "question"]) (some COMMON_INPUT_FIELDS) none true =
      some (Json.str "why") :=
  extract_explicit_priority_amended _ _ _ _ _ "question" (Json.str "why")
    rfl rfl

/-- C5 counterexample: the object holds the requested field query (with
an empty-string value) and the common field input, yet extraction
returns the common field value, not the value of the requested field. -/
theorem extract_explicit_priority_cex :
    List.lookup "query" [("query", Json.str ""), ("input", Json.str "x")] =
      some (Json.str "") ∧
    List.lookup "input" [("query", Json.str ""), ("input", Json.str "x")] =
      some (Json.str "x") ∧
    extractValue (some [("query", Json.str ""), ("input", Json.str "x")])
      (some ["query"]) (some COMMON_INPUT_FIELDS) none true =
      some (Json.str "x") ∧
    Json.str "x" ≠ Json.str "" :=
  ⟨rfl, rfl, rfl, fun h => by
    injection h with h2
    exact absurd h2 (by decide)⟩

/-- C10 amended: falsy values are treated as absent by the explicit
field scan (priority 1) and the common-field scan (priority 3), and the
string scan of the raw fallback skips empty strings, except that the
raw fallback returns an object value unchanged when the object has
exactly one value and that value is a string, even an empty one. -/
theorem extract_falsy_amended :
    (∀ (d : List (String × Json)) (fields : List String)
        (cf : Option (List String)) (role : Option String) (fb : Bool),
        (∀ f ∈ fields, truthyOpt (List.lookup f d) = false) →
        extractValue (some d) (some fields) cf role fb =
          extractValue (some d) none cf role fb) ∧
    (∀ (d : List (String × Json)) (cf : List String) (role : Option String)
        (fb : Bool),
        (∀ f ∈ cf, truthyOpt (List.lookup f d) = false) →
        extractValue (some d) none (some cf) role fb =
          extractValue (some d) none none role fb) ∧
    (∀ (k s : String),
        extractValue (some [(k, Json.str s)]) none none none true =
          some (Json.str s)) ∧
    extractValue (some [("a", Json.str ""), ("b", Json.num 3),
        ("c", Json.str "x")]) none none none true = some (Json.str "x") := by
  refine ⟨?_, ?_, ?_, rfl⟩
  · intro d fields cf role fb h
    simp only [extractValue, firstTruthyOpt, firstTruthy_eq_none d fields h]
  · intro d cf role fb h
    simp only [extractValue, firstTruthyOpt, firstTruthy_eq_none d cf h]
  · intro k s
    have hmc : messagesContent [(k, Json.str s)] none = none := by
      by_cases hk : k = "messages"
      · subst hk
        rfl
      · have hb : ("messages" == k) = false := by
          simp only [beq_eq_false_iff_ne, ne_eq]
          exact fun he => hk he.symm
        simp [messagesContent, List.lookup, hb]
    simp [extractValue, firstTruthyOpt, hmc, rawFallback]

/-- C10 witness: an all-falsy explicit field list behaves as if no
explicit fields were requested, and a single empty-string value is
returned by the raw fallback rather than skipped. -/
theorem extract_falsy_amended_witness :
    extractValue (some [("q", Json.str "")]) (some ["q"]) none none false =
      extractValue (some [("q", Json.str "")]) none none none false ∧
    extractValue (some [("k", Json.str "")]) none none none true =
      some (Json.str "") :=
  ⟨extract_falsy_amended.1 [("q", Json.str "")] ["q"] none none false
      (by decide),
    extract_falsy_amended.2.2.1 "k" ""⟩

/-- C10 counterexample: the object has the requested key q with an
empty-string value; the claim says extraction would fall through to the
whole object, but the raw fallback returns the lone empty string. -/
theorem extract_falsy_cex :
    extractValue (some [("q", Json.str "")]) (some ["q"])
      (some COMMON_INPUT_FIELDS) (some "human") true = some (Json.str "") ∧
    Json.str "" ≠ Json.obj [("q", Json.str "")] :=
  ⟨rfl, fun h => Json.noConfusion h⟩

theorem mem_enum_snd {α : Type} {p : Nat × α} {l : List α}
    (h : p ∈ l.enum) : p.2 ∈ l := by
  obtain ⟨i, x⟩ := p
  have h2 := List.mem_enumFrom h
  have h3 := h2.2.2
  show x ∈ l
  rw [h3]
  exact List.getElem_mem _

theorem sampleNodeIo_subset (shuffle : List NodeIo → List NodeIo)
    (cap : Option Nat) (l : List NodeIo)
    (hperm : (shuffle l).Perm l) :
    sampleNodeIo shuffle cap l ⊆ l := by
  intro x hx
  cases cap with
  | none => exact hx
  | some k =>
      simp only [sampleNodeIo] at hx
      by_cases hc : k ≠ 0 ∧ l.length > k
      · rw [if_pos hc] at hx
        exact hperm.subset (List.take_subset k (shuffle l) hx)
      · rw [if_neg hc] at hx
        exact hx

theorem sampleNodeIo_length (shuffle : List NodeIo → List NodeIo)
    (k : Nat) (l : List NodeIo) (hperm : (shuffle l).Perm l) (hk : k ≠ 0) :
    (sampleNodeIo shuffle (some k) l).length = min l.length k := by
  by_cases hc : l.length > k
  · have : (sampleNodeIo shuffle (some k) l) = (shuffle l).take k := by
      simp [sampleNodeIo, hk, hc]
    rw [this, List.length_take, hperm.length_eq]
    omega
  · have : (sampleNodeIo shuffle (some k) l) = l := by
      simp [sampleNodeIo, hc]
    rw [this]
    omega

/-- C1 amended: for a trace whose extracted root inputs are non-empty,
the single-step builder keeps only matching runs that have non-null
outputs (the getNodeIo list); with a non-zero cap K it emits exactly
min(N, K) examples where N counts those output-bearing matches, and
with no cap it emits all of them in start-time ascending order.  The
occurrence field is the 1-based position inside the emitted sample (the
randomly shuffled subset when the cap binds), not the position among
all matches of the trace, so the emitted occurrences are always exactly
1..count.  Every emitted example still carries the run id, node name,
inputs and outputs of one output-bearing match. -/
theorem singleStep_sample_amended (shuffle : List NodeIo → List NodeIo)
    (tid : String) (runs : List RunData) (opts : GenOptions)
    (hperm : (shuffle (getNodeIo runs opts.runName)).Perm
      (getNodeIo runs opts.runName)) :
    ((∀ k, opts.samplePerTrace = some k → k ≠ 0 →
        (singleStepExamples shuffle tid runs opts).length =
          min (getNodeIo runs opts.runName).length k) ∧
      (opts.samplePerTrace = none →
        singleStepExamples shuffle tid runs opts =
          (getNodeIo runs opts.runName).enum.map
            (fun p => singleStepExample tid p.1 p.2))) ∧
    ((singleStepExamples shuffle tid runs opts).map (fun e => e.occurrence) =
      (List.range (singleStepExamples shuffle tid runs opts).length).map
        (fun i => some (i + 1))) ∧
    (∀ e ∈ singleStepExamples shuffle tid runs opts,
      ∃ nio ∈ getNodeIo runs opts.runName,
        e.run_id = some nio.run_id ∧ e.node_name = some nio.node_name ∧
        e.inputs = some (.obj nio.inputs) ∧
        e.outputs = some (.obj [("expected_output", .obj nio.outputs)])) := by
  refine ⟨⟨?_, ?_⟩, ?_, ?_⟩
  · intro k hk hk0
    rw [singleStepExamples, List.length_map, List.enum_length, hk]
    exact sampleNodeIo_length shuffle k _ hperm hk0
  · intro hnone
    rw [singleStepExamples, hnone]
    rfl
  · rw [singleStepExamples, List.length_map, List.enum_length]
    rw [List.map_map]
    have : ((fun e => e.occurrence) ∘
        (fun p : Nat × NodeIo => singleStepExample tid p.1 p.2)) =
        (fun p : Nat × NodeIo => some (p.1 + 1)) := rfl
    rw [this]
    have h2 : (fun p : Nat × NodeIo => some (p.1 + 1)) =
        ((fun i => some (i + 1)) ∘ Prod.fst) := rfl
    rw [h2, ← List.map_map, List.enum_map_fst]
  · intro e he
    rw [singleStepExamples] at he
    obtain ⟨p, hp, hpe⟩ := List.mem_map.mp he
    refine ⟨p.2, ?_, ?_⟩
    · exact sampleNodeIo_subset shuffle opts.samplePerTrace _ hperm
        (mem_enum_snd hp)
    · subst hpe
      exact ⟨rfl, rfl, rfl, rfl⟩

/-- Matching run with the earlier start time. -/
def ssM1 : RunData :=
  { run_id := some "m1", name := some "model", start_time := some 1,
    outputs := some [("o", .str "1")] }

/-- Matching run with the later start time. -/
def ssM2 : RunData :=
  { run_id := some "m2", name := some "model", start_time := some 2,
    outputs := some [("o", .str "2")] }

/-- Matching run without outputs. -/
def ssB1 : RunData :=
  { run_id := some "b1", name := some "model", start_time := some 1 }

/-- Root run with non-empty inputs. -/
def ssRoot : RunData :=
  { run_id := some "root", inputs := some [("query", .str "hi")] }

/-- Root run with empty inputs. -/
def ssRootEmpty : RunData := { run_id := some "root3" }

/-- Single-step options: target name model, cap 1. -/
def ssOptsCap1 : GenOptions :=
  { runName := some "model", samplePerTrace := some 1 }

/-- Single-step options: target name model, no cap. -/
def ssOptsNoCap : GenOptions := { runName := some "model" }

/-- C1 witness: with two output-bearing matches and cap 1, exactly
min(2,1) = 1 example is emitted, and occurrences always run 1..count. -/
theorem singleStep_sample_amended_witness :
    (singleStepExamples id "W" [ssM1, ssM2] ssOptsCap1).length =
      min (getNodeIo [ssM1, ssM2] (some "model")).length 1 ∧
    (singleStepExamples id "W" [ssM1, ssM2] ssOptsCap1).map
        (fun e => e.occurrence) =
      (List.range
        (singleStepExamples id "W" [ssM1, ssM2] ssOptsCap1).length).map
        (fun i => some (i + 1)) :=
  ⟨(singleStep_sample_amended id "W" [ssM1, ssM2] ssOptsCap1
      (List.Perm.refl _)).1.1 1 rfl (by decide),
   (singleStep_sample_amended id "W" [ssM1, ssM2] ssOptsCap1
      (List.Perm.refl _)).2.1⟩

/-- C1 counterexample, three parts.  First: with 5 runs replaced by 2
for concreteness, cap 1 and the reversal as the (legal) outcome of the
random shuffle, the emitted example is the second match in start-time
order but carries occurrence 1, so occurrence is not the position among
all matches.  Second: a matching run without outputs is dropped, so two
matching runs with no cap yield one example, not min(2, infinity) = 2.
Third: a trace whose root has empty inputs emits nothing although a
matching run exists. -/
theorem singleStep_occurrence_cex :
    ((perTraceF 0 List.reverse ("T", ssRoot, [ssM1, ssM2]) "single_step"
        ssOptsCap1).map (fun es => es.map (fun e => (e.run_id, e.occurrence)))
      = some [(some "m2", some 1)]) ∧
    ((getNodeIo [ssM1, ssM2] (some "model")).map (fun n => n.run_id) =
      ["m1", "m2"]) ∧
    ((singleStepExamples id "T2" [ssB1, ssM2] ssOptsNoCap).length = 1 ∧
      ([ssB1, ssM2].filter (fun r => decide (r.name = some "model"))).length
        = 2) ∧
    (perTraceF 0 id ("T3", ssRootEmpty, [ssM1]) "single_step" ssOptsNoCap =
      some []) := by
  refine ⟨?_, by decide, ⟨by decide, by decide⟩, rfl⟩
  rfl

theorem toolLoop_eq (pm : List (String × Option String)) (fuel : Nat)
    (dep : Option Nat) :
    ∀ (l : List RunData) (ts : List String), toolLoop pm fuel dep l = some ts →
      ts = l.filterMap (fun r =>
        if r.run_type = some "tool" ∧ depthOkB pm fuel dep (ridOf r) = some true
        then some (toolName r) else none) := by
  intro l
  induction l with
  | nil =>
      intro ts h
      simp only [toolLoop] at h
      injection h with h
      simp [← h]
  | cons r rest ih =>
      intro ts h
      simp only [toolLoop] at h
      rw [List.filterMap_cons]
      by_cases ht : r.run_type = some "tool"
      · rw [if_pos ht] at h
        rcases hd : depthOkB pm fuel dep (ridOf r) with _ | b
        · rw [hd] at h
          exact Option.noConfusion h
        · rw [hd] at h
          cases b with
          | true =>
              rcases hrest : toolLoop pm fuel dep rest with _ | ts0
              · rw [hrest] at h
                exact Option.noConfusion h
              · rw [hrest] at h
                have hts : toolName r :: ts0 = ts := by injection h
                rw [if_pos ⟨ht, rfl⟩, ← hts, ih ts0 hrest]
          | false =>
              rw [if_neg (fun hc => absurd hc.2 (by decide))]
              exact ih ts h
      · rw [if_neg ht] at h
        rw [if_neg (fun hc => ht hc.1)]
        exact ih ts h

/-- C7: whenever the trajectory builder runs on a trace with non-empty
extracted root inputs and the depth walks finish, the produced tool
sequence is exactly the lower-cased names of the runs of type tool, in
start-time ascending order, restricted to runs whose computed depth
passes the optional bound, and the emitted example (when the sequence
is non-empty) is the trace id, the root inputs, and the sequence under
the expected_trajectory key. -/
theorem trajectory_builder_correct (fuel : Nat)
    (shuffle : List NodeIo → List NodeIo) (tid : String) (root : RunData)
    (runs : List RunData) (opts : GenOptions) (ri : Json) (ts : List String)
    (h1 : extractTraceInputs root opts.inputFields opts.inputFields.isNone =
      some ri)
    (h2 : truthy ri = true) (h3 : jsonEmptyObj ri = false)
    (h4 : extractToolSequenceF fuel runs opts.depth = some ts) :
    ts = (sortKey ascLe timeKey runs).filterMap (fun r =>
      if r.run_type = some "tool" ∧
          depthOkB (parentMapOf runs) fuel opts.depth (ridOf r) = some true
      then some (toolName r) else none) ∧
    perTraceF fuel shuffle (tid, root, runs) "trajectory" opts =
      some (if ts.isEmpty then []
        else [{ trace_id := tid, inputs := some (buildInputs ri opts),
                outputs := some (.obj
                  [("expected_trajectory", .arr (ts.map .str))]) }]) := by
  constructor
  · exact toolLoop_eq (parentMapOf runs) fuel opts.depth _ ts h4
  · have hskip : rootInputsSkip (some ri) = false := by
      simp [rootInputsSkip, h2, h3]
    simp only [perTraceF, h1, hskip, h4,
      show ("trajectory" = "rag") = False from eq_false (by decide),
      show ("trajectory" = "final_response") = False from eq_false (by decide),
      show ("trajectory" = "single_step") = False from eq_false (by decide),
      if_false, Bool.false_eq_true]
    by_cases hts : ts.isEmpty <;> simp [hts]

/-- Root run of the specification scenario T1. -/
def trajRoot : RunData :=
  { run_id := some "r1", inputs := some [("query", .str "hi")],
    outputs := some [("answer", .str "hello")], start_time := some 1 }

/-- Child tool run named search of the specification scenario T1. -/
def trajTool : RunData :=
  { run_id := some "r2", parent_run_id := some "r1", run_type := some "tool",
    name := some "search", start_time := some 2 }

/-- C7 witness: the specification scenario.  The trace with root inputs
holding query hi and one child tool run named search yields exactly one
example carrying expected_trajectory search. -/
theorem trajectory_builder_correct_witness :
    perTraceF 1 id ("T1", trajRoot, [trajRoot, trajTool]) "trajectory" {} =
      some [{ trace_id := "T1",
              inputs := some (.obj [("query", .str "hi")]),
              outputs := some (.obj
                [("expected_trajectory", .arr [.str "search"])]) }] :=
  (trajectory_builder_correct 1 id "T1" trajRoot [trajRoot, trajTool] {}
    (Json.obj [("query", Json.str "hi")]) ["search"] rfl rfl rfl rfl).2

/-- Query candidate contributed by one retriever run: the extracted
input-side value (no explicit fields, no raw fallback), string-coerced,
when that value is truthy and coerces to a non-empty string. -/
def ragCandidate (r : RunData) : Option String :=
  match r.inputs with
  | some ins =>
      match extractValue (some ins) none (some COMMON_INPUT_FIELDS)
          (some "human") false with
      | some v =>
          if truthy v ∧ jsToString v ≠ "" then some (jsToString v) else none
      | none => none
  | none => none

/-- Declarative form of the query the RAG builder ends up with: the
first candidate among the retriever runs in start-time order, or the
empty string. -/
def ragQueryOf (runs : List RunData) : String :=
  (((sortKey ascLe timeKey
      (runs.filter (fun r => decide (r.run_type = some "retriever")))).filterMap
        ragCandidate).head?).getD ""

theorem ragQueryStep_of_ne (r : RunData) (q : String) (hq : q ≠ "") :
    ragQueryStep r q = q := by
  cases hr : r.inputs with
  | none => simp [ragQueryStep, hr]
  | some ins => simp [ragQueryStep, hr, hq]

theorem ragLoop_query_stable (l : List RunData) :
    ∀ q cs, q ≠ "" → (ragLoop l q cs).1 = q := by
  induction l with
  | nil => intro q cs _; rfl
  | cons r rest ih =>
      intro q cs hq
      simp only [ragLoop, ragQueryStep_of_ne r q hq]
      exact ih q _ hq

theorem ragCandidate_spec (r : RunData) :
    (∀ s, ragCandidate r = some s → ragQueryStep r "" = s ∧ s ≠ "") ∧
    (ragCandidate r = none → ragQueryStep r "" = "") := by
  cases hr : r.inputs with
  | none => simp [ragCandidate, ragQueryStep, hr]
  | some ins =>
      cases he : extractValue (some ins) none (some COMMON_INPUT_FIELDS)
          (some "human") false with
      | none => simp [ragCandidate, ragQueryStep, hr, he]
      | some v =>
          by_cases htv : truthy v = true
          · by_cases hjs : jsToString v = ""
            · simp [ragCandidate, ragQueryStep, hr, he, htv, hjs]
            · simp [ragCandidate, ragQueryStep, hr, he, htv, hjs]
          · have htv2 : truthy v = false := by
              cases hb : truthy v
              · rfl
              · exact absurd hb htv
            simp [ragCandidate, ragQueryStep, hr, he, htv2]

theorem ragLoop_query_eq (l : List RunData) :
    ∀ cs, (ragLoop l "" cs).1 = ((l.filterMap ragCandidate).head?).getD "" := by
  induction l with
  | nil => intro cs; rfl
  | cons r rest ih =>
      intro cs
      simp only [ragLoop, List.filterMap_cons]
      cases hc : ragCandidate r with
      | none =>
          rw [(ragCandidate_spec r).2 hc]
          exact ih _
      | some s =>
          obtain ⟨hstep, hs⟩ := (ragCandidate_spec r).1 s hc
          rw [hstep]
          simp only [List.head?_cons, Option.getD_some]
          exact ragLoop_query_stable rest s _ hs

/-- C6 amended: the question of a RAG example is the extracted
input-side value of the first retriever run, in start-time order, whose
inputs are a non-null object and whose extraction yields a truthy value
with non-empty string coercion, rather than of the first retriever run
unconditionally; the trace is skipped (zero examples) exactly when no
retriever run yields such a query or the extracted answer is empty, and
in particular a trace with no retriever-type runs yields zero
examples. -/
theorem rag_query_amended (fuel : Nat) (shuffle : List NodeIo → List NodeIo)
    (tid : String) (root : RunData) (runs : List RunData)
    (opts : GenOptions) :
    ((findRetrievalData runs).query = ragQueryOf runs) ∧
    (∀ es, perTraceF fuel shuffle (tid, root, runs) "rag" opts = some es →
      ((es = [] ↔ (ragQueryOf runs = "" ∨ extractFinalOutput runs none = "")) ∧
        ∀ e ∈ es, e.question = some (ragQueryOf runs) ∧
          e.answer = some (extractFinalOutput runs none))) ∧
    (runs.filter (fun r => decide (r.run_type = some "retriever")) = [] →
      perTraceF fuel shuffle (tid, root, runs) "rag" opts = some []) := by
  have hq : (findRetrievalData runs).query = ragQueryOf runs := by
    simp only [findRetrievalData, ragQueryOf]
    exact ragLoop_query_eq _ []
  have hans : (findRetrievalData runs).answer = extractFinalOutput runs none :=
    rfl
  refine ⟨hq, ?_, ?_⟩
  · intro es hes
    simp only [perTraceF] at hes
    rw [if_pos trivial] at hes
    by_cases hcond : (findRetrievalData runs).query ≠ "" ∧
        (findRetrievalData runs).answer ≠ ""
    · rw [if_pos hcond] at hes
      injection hes with hes
      subst hes
      constructor
      · simp only [ragExample]
        constructor
        · intro habs
          exact absurd habs (by simp)
        · intro habs
          rcases habs with habs | habs
          · exact absurd (hq.trans habs) hcond.1
          · exact absurd (hans.trans habs) hcond.2
      · intro e he
        rcases List.mem_singleton.mp he with rfl
        exact ⟨by simp [ragExample, hq], by simp [ragExample, hans]⟩
    · rw [if_neg hcond] at hes
      injection hes with hes
      subst hes
      constructor
      · constructor
        · intro _
          by_cases h1 : (findRetrievalData runs).query = ""
          · exact Or.inl (hq ▸ h1)
          · right
            by_cases h2 : (findRetrievalData runs).answer = ""
            · exact hans ▸ h2
            · exact absurd ⟨h1, h2⟩ hcond
        · intro _
          rfl
      · intro e he
        exact absurd he (List.not_mem_nil e)
  · intro hnone
    have hq0 : (findRetrievalData runs).query = "" := by
      rw [hq]
      simp [ragQueryOf, hnone, sortKey]
    simp only [perTraceF]
    rw [if_pos trivial, if_neg (fun hc => hc.1 hq0)]

/-- Run producing the RAG answer in the witness and counterexample. -/
def ragAnsRun : RunData :=
  { run_id := some "c", start_time := some 3,
    outputs := some [("answer", .str "yes")] }

/-- C6 witness: a trace with no retriever-type runs yields zero RAG
examples. -/
theorem rag_query_amended_witness :
    perTraceF 0 id ("TW", ssRoot, [ragAnsRun]) "rag" {} = some [] :=
  (rag_query_amended 0 id "TW" ssRoot [ragAnsRun] {}).2.2 rfl

/-- First retriever run: its inputs hold no extractable query. -/
def ragRetA : RunData :=
  { run_id := some "a", run_type := some "retriever", start_time := some 1,
    inputs := some [("foo", .num 1)] }

/-- Second retriever run: its inputs hold the query hello. -/
def ragRetB : RunData :=
  { run_id := some "b", run_type := some "retriever", start_time := some 2,
    inputs := some [("query", .str "hello")] }

/-- C6 counterexample: the first retriever run (start-time order) has a
non-null inputs object whose extraction is empty, so by the claim the
trace should be skipped; the builder instead takes the query of the
second retriever run and emits one example with question hello. -/
theorem rag_first_retriever_cex :
    ((sortKey ascLe timeKey ([ragRetA, ragRetB, ragAnsRun].filter
        (fun r => decide (r.run_type = some "retriever")))).map
        (fun r => r.run_id) = [some "a", some "b"]) ∧
    extractValue (some [("foo", Json.num 1)]) none (some COMMON_INPUT_FIELDS)
      (some "human") false = none ∧
    ((perTraceF 0 id ("T", ssRoot, [ragRetA, ragRetB, ragAnsRun]) "rag"
        {}).map (fun es => es.map (fun e => e.question)) =
      some [some "hello"]) :=
  ⟨by decide, rfl, by rfl⟩

/-- Bucket of a key in the grouping map, empty when absent. -/
def bucketGet (m : List (String × List RunData)) (k : String) :
    List RunData :=
  (List.lookup k m).getD []

theorem bucketGet_addToBucket (m : List (String × List RunData))
    (k k2 : String) (r : RunData) :
    bucketGet (addToBucket m k2 r) k =
      if k = k2 then bucketGet m k ++ [r] else bucketGet m k := by
  induction m with
  | nil =>
      by_cases hk : k = k2
      · simp [addToBucket, bucketGet, List.lookup, beq_iff_eq, hk]
      · have hb : (k == k2) = false := beq_eq_false_iff_ne.mpr hk
        simp [addToBucket, bucketGet, List.lookup, hb, hk]
  | cons kb rest ih =>
      obtain ⟨k0, rs⟩ := kb
      by_cases h0 : k0 = k2
      · subst h0
        by_cases hk : k = k0
        · have hb : (k == k0) = true := beq_iff_eq.mpr hk
          simp [addToBucket, bucketGet, List.lookup, hb, hk]
        · have hb : (k == k0) = false := beq_eq_false_iff_ne.mpr hk
          simp [addToBucket, bucketGet, List.lookup, hb, hk]
      · by_cases hk : k = k0
        · have hk2 : ¬ k = k2 := fun he => h0 (hk.symm.trans he)
          have hb : (k == k0) = true := beq_iff_eq.mpr hk
          simp [addToBucket, bucketGet, List.lookup, h0, hb, hk2]
        · have hb : (k == k0) = false := beq_eq_false_iff_ne.mpr hk
          have hih := ih
          simp only [bucketGet] at hih
          simp [addToBucket, bucketGet, List.lookup, h0, hb, hih]

theorem groupFold_bucketGet (fb : String) (runs : List RunData) :
    ∀ (m : List (String × List RunData)) (k : String),
      bucketGet (runs.foldl (fun m r => addToBucket m (runKey r fb) r) m) k =
        bucketGet m k ++
          runs.filter (fun r => decide (runKey r fb = k)) := by
  induction runs with
  | nil => intro m k; simp
  | cons r rest ih =>
      intro m k
      simp only [List.foldl_cons, List.filter_cons]
      rw [ih, bucketGet_addToBucket]
      by_cases hk : runKey r fb = k
      · rw [if_pos hk.symm]
        simp [hk]
      · rw [if_neg (fun he => hk he.symm)]
        simp [hk]

theorem sumLens_addToBucket (m : List (String × List RunData)) (k : String)
    (r : RunData) :
    ((addToBucket m k r).map (fun b => b.2.length)).sum =
      (m.map (fun b => b.2.length)).sum + 1 := by
  induction m with
  | nil => simp [addToBucket]
  | cons kb rest ih =>
      obtain ⟨k0, rs⟩ := kb
      by_cases h0 : k0 = k
      · simp [addToBucket, h0]
        omega
      · simp [addToBucket, h0, ih]
        omega

theorem groupFold_sum (fb : String) (runs : List RunData) :
    ∀ m, ((runs.foldl (fun m r => addToBucket m (runKey r fb) r) m).map
        (fun b => b.2.length)).sum =
      (m.map (fun b => b.2.length)).sum + runs.length := by
  induction runs with
  | nil => intro m; simp
  | cons r rest ih =>
      intro m
      simp only [List.foldl_cons, List.length_cons]
      rw [ih, sumLens_addToBucket]
      omega

theorem addToBucket_keys (m : List (String × List RunData)) (k : String)
    (r : RunData) :
    (addToBucket m k r).map Prod.fst =
      if k ∈ m.map Prod.fst then m.map Prod.fst
      else m.map Prod.fst ++ [k] := by
  induction m with
  | nil => simp [addToBucket]
  | cons kb rest ih =>
      obtain ⟨k0, rs⟩ := kb
      by_cases h0 : k0 = k
      · simp [addToBucket, h0]
      · have hne : ¬ k = k0 := fun he => h0 he.symm
        by_cases hmem : k ∈ rest.map Prod.fst
        · simp [addToBucket, h0, ih, hmem, hne]
        · simp [addToBucket, h0, ih, hmem, hne]

theorem addToBucket_nodup (m : List (String × List RunData)) (k : String)
    (r : RunData) (h : (m.map Prod.fst).Nodup) :
    ((addToBucket m k r).map Prod.fst).Nodup := by
  rw [addToBucket_keys]
  by_cases hmem : k ∈ m.map Prod.fst
  · rw [if_pos hmem]
    exact h
  · rw [if_neg hmem]
    rw [List.nodup_append]
    exact ⟨h, List.nodup_singleton k,
      fun a ha hb => hmem ((List.mem_singleton.mp hb) ▸ ha)⟩

theorem groupFold_keys_nodup (fb : String) (runs : List RunData) :
    ∀ m, (m.map Prod.fst).Nodup →
      ((runs.foldl (fun m r => addToBucket m (runKey r fb) r) m).map
        Prod.fst).Nodup := by
  induction runs with
  | nil => intro m h; exact h
  | cons r rest ih =>
      intro m h
      exact ih _ (addToBucket_nodup m (runKey r fb) r h)

/-- C8: grouping by trace id partitions the input exactly: the bucket
sizes sum to the input length, each bucket holds exactly the input runs
(in input order) whose key — the trace id when truthy, else the
fallback — equals the bucket key, bucket keys are distinct, and every
input run belongs to the bucket of its key. -/
theorem groupByTrace_partition (runs : List RunData) (fb : String) :
    (((groupByTrace runs fb).map (fun b => b.2.length)).sum = runs.length) ∧
    (∀ k bs, List.lookup k (groupByTrace runs fb) = some bs →
        bs = runs.filter (fun r => decide (runKey r fb = k))) ∧
    (((groupByTrace runs fb).map Prod.fst).Nodup) ∧
    (∀ r ∈ runs, ∃ bs,
        List.lookup (runKey r fb) (groupByTrace runs fb) = some bs ∧
        r ∈ bs) := by
  have hbg : ∀ k, bucketGet (groupByTrace runs fb) k =
      runs.filter (fun r => decide (runKey r fb = k)) := by
    intro k
    rw [groupByTrace, groupFold_bucketGet]
    simp [bucketGet]
  refine ⟨?_, ?_, ?_, ?_⟩
  · have := groupFold_sum fb runs []
    simpa [groupByTrace] using this
  · intro k bs hlk
    have h1 := hbg k
    rw [bucketGet, hlk] at h1
    simpa using h1
  · have := groupFold_keys_nodup fb runs [] (by simp)
    simpa [groupByTrace] using this
  · intro r hr
    have h1 := hbg (runKey r fb)
    have hrmem : r ∈ runs.filter
        (fun r2 => decide (runKey r2 fb = runKey r fb)) :=
      List.mem_filter.mpr ⟨hr, by simp⟩
    cases hlk : List.lookup (runKey r fb) (groupByTrace runs fb) with
    | none =>
        rw [bucketGet, hlk] at h1
        simp only [Option.getD_none] at h1
        rw [← h1] at hrmem
        exact absurd hrmem (List.not_mem_nil r)
    | some bs =>
        refine ⟨bs, rfl, ?_⟩
        rw [bucketGet, hlk] at h1
        simp only [Option.getD_some] at h1
        rw [h1]
        exact hrmem

/-- Grouped run with trace id t1. -/
def gwA : RunData := { run_id := some "ra", trace_id := some "t1" }

/-- Grouped run without a trace id, assigned to the fallback bucket. -/
def gwB : RunData := { run_id := some "rb" }

/-- Second grouped run with trace id t1. -/
def gwC : RunData := { run_id := some "rc", trace_id := some "t1" }

/-- C8 witness: a run with trace id t1 lands in the bucket keyed t1 of
the three-run grouping. -/
theorem groupByTrace_partition_witness :
    ∃ bs, List.lookup (runKey gwA "unknown")
        (groupByTrace [gwA, gwB, gwC] "unknown") = some bs ∧ gwA ∈ bs :=
  (groupByTrace_partition [gwA, gwB, gwC] "unknown").2.2.2 gwA
    (List.mem_cons_self _ _)

theorem charsLe_refl (x : List Char) : charsLe x x = true := by
  induction x with
  | nil => rfl
  | cons a as ih => simp [charsLe, ih]

theorem charsLe_total : ∀ x y : List Char,
    charsLe x y = true ∨ charsLe y x = true := by
  intro x
  induction x with
  | nil => intro y; left; rfl
  | cons a as ih =>
      intro y
      cases y with
      | nil => right; rfl
      | cons b bs =>
          rcases Nat.lt_trichotomy a.toNat b.toNat with h | h | h
          · left
            simp [charsLe, h]
          · rcases ih bs with hc | hc
            · left
              simp [charsLe, h, hc]
            · right
              simp [charsLe, h.symm, hc]
          · right
            simp [charsLe, h]

theorem charsLe_trans : ∀ x y z : List Char,
    charsLe x y = true → charsLe y z = true → charsLe x z = true := by
  intro x
  induction x with
  | nil => intro y z _ _; rfl
  | cons a as ih =>
      intro y z hxy hyz
      cases y with
      | nil => simp [charsLe] at hxy
      | cons b bs =>
          cases z with
          | nil => simp [charsLe] at hyz
          | cons c cs =>
              simp only [charsLe] at hxy hyz ⊢
              by_cases hab : a.toNat < b.toNat
              · by_cases hbc : b.toNat < c.toNat
                · simp [Nat.lt_trans hab hbc]
                · by_cases hcb : c.toNat < b.toNat
                  · rw [if_neg hbc, if_pos hcb] at hyz
                    exact absurd hyz (by simp)
                  · have hac : a.toNat < c.toNat := by omega
                    simp [hac]
              · by_cases hba : b.toNat < a.toNat
                · rw [if_neg hab, if_pos hba] at hxy
                  exact absurd hxy (by simp)
                · rw [if_neg hab, if_neg hba] at hxy
                  by_cases hbc : b.toNat < c.toNat
                  · have hac : a.toNat < c.toNat := by omega
                    simp [hac]
                  · by_cases hcb : c.toNat < b.toNat
                    · rw [if_neg hbc, if_pos hcb] at hyz
                      exact absurd hyz (by simp)
                    · rw [if_neg hbc, if_neg hcb] at hyz
                      have h1 : ¬ a.toNat < c.toNat := by omega
                      have h2 : ¬ c.toNat < a.toNat := by omega
                      rw [if_neg h1, if_neg h2]
                      exact ih bs cs hxy hyz

theorem strLeB_trans : ∀ a b c : String,
    strLeB a b = true → strLeB b c = true → strLeB a c = true :=
  fun a b c => charsLe_trans a.data b.data c.data

theorem strLeB_total : ∀ a b : String,
    strLeB a b = true ∨ strLeB b a = true :=
  fun a b => charsLe_total a.data b.data

theorem mem_addKeysFrom (ex : List (String × Json)) :
    ∀ (acc : List String) (k : String),
      k ∈ addKeysFrom acc ex ↔ k ∈ acc ∨ k ∈ ex.map Prod.fst := by
  induction ex with
  | nil => intro acc k; simp [addKeysFrom]
  | cons kv rest ih =>
      intro acc k
      have hdef : addKeysFrom acc (kv :: rest) =
          addKeysFrom (if kv.1 ∈ acc then acc else acc ++ [kv.1]) rest := rfl
      rw [hdef, ih]
      by_cases hm : kv.1 ∈ acc
      · rw [if_pos hm]
        simp only [List.map_cons, List.mem_cons]
        constructor
        · rintro (h | h)
          · exact Or.inl h
          · exact Or.inr (Or.inr h)
        · rintro (h | h | h)
          · exact Or.inl h
          · exact Or.inl (h ▸ hm)
          · exact Or.inr h
      · rw [if_neg hm]
        simp only [List.mem_append, List.mem_singleton, List.map_cons,
          List.mem_cons]
        tauto

theorem addKeysFrom_nodup (ex : List (String × Json)) :
    ∀ acc : List String, acc.Nodup → (addKeysFrom acc ex).Nodup := by
  induction ex with
  | nil => intro acc h; exact h
  | cons kv rest ih =>
      intro acc h
      have hdef : addKeysFrom acc (kv :: rest) =
          addKeysFrom (if kv.1 ∈ acc then acc else acc ++ [kv.1]) rest := rfl
      rw [hdef]
      apply ih
      by_cases hm : kv.1 ∈ acc
      · rw [if_pos hm]
        exact h
      · rw [if_neg hm]
        rw [List.nodup_append]
        exact ⟨h, List.nodup_singleton kv.1,
          fun a ha hb => hm ((List.mem_singleton.mp hb) ▸ ha)⟩

theorem mem_keysFold (ds : List (List (String × Json))) :
    ∀ (acc : List String) (k : String),
      k ∈ ds.foldl addKeysFrom acc ↔
        k ∈ acc ∨ ∃ ex ∈ ds, k ∈ ex.map Prod.fst := by
  induction ds with
  | nil => intro acc k; simp
  | cons ex rest ih =>
      intro acc k
      rw [List.foldl_cons, ih, mem_addKeysFrom]
      simp only [List.mem_cons]
      constructor
      · rintro ((h | h) | ⟨ex2, hex2, hk⟩)
        · exact Or.inl h
        · exact Or.inr ⟨ex, Or.inl rfl, h⟩
        · exact Or.inr ⟨ex2, Or.inr hex2, hk⟩
      · rintro (h | ⟨ex2, (rfl | hex2), hk⟩)
        · exact Or.inl (Or.inl h)
        · exact Or.inl (Or.inr hk)
        · exact Or.inr ⟨ex2, hex2, hk⟩

theorem keysFold_nodup (ds : List (List (String × Json))) :
    ∀ acc : List String, acc.Nodup → (ds.foldl addKeysFrom acc).Nodup := by
  induction ds with
  | nil => intro acc h; exact h
  | cons ex rest ih =>
      intro acc h
      exact ih _ (addKeysFrom_nodup ex acc h)

/-- C9: the CSV export of a non-empty dataset writes a header row that
is the sorted (by the code-point order the default sort comparator
induces), duplicate-free union of all keys across all records, then one
row per record with cells in header order, where a missing or null key
renders as the empty string, an object or array value is
JSON-stringified, and any rendered value containing a comma, double
quote or newline is wrapped in double quotes with internal quotes
doubled. -/
theorem exportCsv_correct (ds : List (List (String × Json)))
    (h : ds ≠ []) :
    exportToFileCsv ds = some (exportCsvLines ds) ∧
    (exportCsvLines ds).length = ds.length + 1 ∧
    exportCsvLines ds = csvLine (csvFieldnames ds) ::
      ds.map (fun ex => csvLine ((csvFieldnames ds).map (csvCell ex))) ∧
    (csvFieldnames ds).Pairwise (fun a b => strLeB a b = true) ∧
    (csvFieldnames ds).Nodup ∧
    (∀ k, k ∈ csvFieldnames ds ↔ ∃ ex ∈ ds, k ∈ ex.map Prod.fst) ∧
    (∀ (ex : List (String × Json)) (k : String),
        List.lookup k ex = none → csvCell ex k = "") ∧
    (∀ (ex : List (String × Json)) (k : String) (v : Json),
        List.lookup k ex = some v → v ≠ Json.null →
        csvCell ex k =
          (if csvNeedsQuote (csvRender v) then csvQuote (csvRender v)
           else csvRender v)) := by
  refine ⟨?_, ?_, rfl, ?_, ?_, ?_, ?_, ?_⟩
  · rw [exportToFileCsv, if_neg]
    simp [h]
  · simp [exportCsvLines]
  · exact sortKey_pairwise strLeB_trans strLeB_total _
  · have hperm := sortKey_perm strLeB (fun s : String => s)
      (ds.foldl addKeysFrom [])
    rw [csvFieldnames]
    exact hperm.nodup_iff.mpr (keysFold_nodup ds [] (by simp))
  · intro k
    have hperm := sortKey_perm strLeB (id : String → String)
      (ds.foldl addKeysFrom [])
    rw [csvFieldnames, hperm.mem_iff, mem_keysFold]
    simp
  · intro ex k hlk
    simp [csvCell, hlk]
  · intro ex k v hlk hv
    rw [csvCell, hlk]
    cases v with
    | null => exact absurd rfl hv
    | bool b => rfl
    | num n => rfl
    | str s => rfl
    | arr xs => rfl
    | obj fs => rfl

/-- First exported record of the C9 witness. -/
def csvExA : List (String × Json) := [("b", .str "x,y"), ("a", .num 1)]

/-- Second exported record of the C9 witness. -/
def csvExB : List (String × Json) :=
  [("c", .obj [("k", .str "v")]), ("a", .null)]

/-- C9 witness: the guarded export produces the CSV lines for a
two-record dataset, and a key missing from a record renders as the
empty cell. -/
theorem exportCsv_correct_witness :
    exportToFileCsv [csvExA, csvExB] =
      some (exportCsvLines [csvExA, csvExB]) ∧
    csvCell csvExA "c" = "" := by
  have h := exportCsv_correct [csvExA, csvExB] (by simp)
  exact ⟨h.1, h.2.2.2.2.2.2.1 csvExA "c" rfl⟩

end TraceGen
